/-
Verification of the BM1370 wire-protocol layer and initialization sequence
(bitaxerawpy: src/bm1370.py, src/bitaxerawpy.py).

Shallow embedding conventions:
* Python bytes are modelled as `List ℕ` with each element `< 256`; byte-array
  index/slice assignment is modelled operationally with `List.set` and
  `setRange`.  An out-of-range byte assignment raises `ValueError` in Python,
  so `send` returns an `Option`: `none` models the raise.
* The two checksum primitives `crc5` and `crc16_false` live in
  `crc_functions.py`, which the spec declares an external collaborator with a
  fixed contract; they are taken as arbitrary function parameters
  `List ℕ → ℕ` (`crc5` is contracted to return a byte).
* Python `int` is modelled as `ℤ` where negatives are reachable
  (difficulty), `ℕ` where not; Python `float` frequencies are modelled as
  `ℚ` with Python's banker's rounding (`round` = half-to-even) made explicit
  in `pyRound`.  All constants appearing in the frequency computations
  (25, 1.0, 2400, small divider products) are exactly representable, so the
  rational model coincides with the double-precision evaluation on the
  inputs the claims quantify over.
* The serial transport is modelled as a stream `reads : ℕ → Option (List ℕ)`
  giving the result of the n-th `serial_rx_func` call (`none` models Python
  `None`); the unbounded `while True` enumeration loop takes explicit fuel.
-/
import Mathlib

set_option maxRecDepth 100000

namespace BM1370

/- The rational arithmetic primitives are `@[irreducible]` upstream, which
blocks `decide` from evaluating the concrete frequency computations; restore
their normal reducibility for this development. -/
attribute [local semireducible] Rat.mul Rat.add Rat.sub Rat.inv

/-! ## Packet framer (`BM1370.send`, bm1370.py lines 36-55) -/

/-- Python slice assignment `buf[s:s+len(vs)] = vs`. -/
def setRange : List ℕ → ℕ → List ℕ → List ℕ
  | l, _, [] => l
  | l, s, v :: vs => setRange (l.set s v) (s + 1) vs

/-- `BM1370.send`: builds the frame in a zero-initialised bytearray of the
computed total length, filling sync bytes, header, length field, payload and
finally the class-appropriate checksum over the slice `buf[2:4+data_len]`.
Returns `none` when a byte assignment would raise `ValueError` in Python
(header or a payload byte or the length field or the crc5 value not in
`[0,255]`). -/
def send (crc5 crc16_false : List ℕ → ℕ) (header : ℕ) (data : List ℕ) :
    Option (List ℕ) :=
  let data_len := data.length
  let total_length := if header &&& 0x20 ≠ 0 then data_len + 6 else data_len + 5
  let lenField := if header &&& 0x20 ≠ 0 then data_len + 4 else data_len + 3
  let buf1 :=
    ((((List.replicate total_length 0).set 0 0x55).set 1 0xAA).set 2 header).set
      3 lenField
  let buf2 := setRange buf1 4 data
  let core := (buf2.drop 2).take (2 + data_len)
  if header < 256 ∧ (∀ b ∈ data, b < 256) ∧ lenField < 256 ∧
      (header &&& 0x20 ≠ 0 ∨ crc5 core < 256) then
    some (if header &&& 0x20 ≠ 0 then
      (buf2.set (4 + data_len) ((crc16_false core >>> 8) &&& 0xFF)).set
        (5 + data_len) (crc16_false core &&& 0xFF)
    else
      buf2.set (4 + data_len) (crc5 core))
  else
    none

/-- Setting an element just past a prefix acts on the suffix. -/
theorem set_append_len (A : List ℕ) (l : List ℕ) (n v : ℕ) :
    (A ++ l).set (A.length + n) v = A ++ l.set n v := by
  induction A with
  | nil => simp
  | cons a A ih => simp [List.set, Nat.succ_add, ih]

/-- Slice assignment of `vs` into the zero padding right after a prefix of
matching length. -/
theorem setRange_append (vs : List ℕ) :
    ∀ (A : List ℕ) (k : ℕ),
      setRange (A ++ List.replicate (vs.length + k) 0) A.length vs =
        A ++ vs ++ List.replicate k 0 := by
  induction vs with
  | nil => intro A k; simp [setRange]
  | cons v vs ih =>
    intro A k
    have h1 : List.replicate ((v :: vs).length + k) (0 : ℕ) =
        (0 : ℕ) :: List.replicate (vs.length + k) 0 := by
      have h : (v :: vs).length + k = (vs.length + k) + 1 := by
        simp [Nat.succ_add]
      rw [h, List.replicate_succ]
    have h2 : (A ++ (0 : ℕ) :: List.replicate (vs.length + k) 0).set A.length v =
        A ++ v :: List.replicate (vs.length + k) 0 := by
      simpa using set_append_len A ((0 : ℕ) :: List.replicate (vs.length + k) 0) 0 v
    simp only [setRange]
    rw [h1, h2]
    have h4 : A.length + 1 = (A ++ [v]).length := by simp
    have h5 : A ++ v :: List.replicate (vs.length + k) 0 =
        (A ++ [v]) ++ List.replicate (vs.length + k) 0 := by simp
    rw [h5, h4, ih (A ++ [v]) k]
    simp

/-- The filled buffer before the checksum bytes:
sync pair, header, length field, payload, zero padding for the checksum. -/
theorem send_buf_shape (header lenField pad : ℕ) (data : List ℕ) :
    setRange (((((List.replicate (4 + (data.length + pad)) 0).set 0 0x55).set 1
          0xAA).set 2 header).set 3 lenField) 4 data =
      [0x55, 0xAA, header, lenField] ++ data ++ List.replicate pad 0 := by
  have h0 : List.replicate (4 + (data.length + pad)) (0 : ℕ) =
      [0, 0, 0, 0] ++ List.replicate (data.length + pad) 0 := by
    rw [List.replicate_add]
    rfl
  rw [h0]
  have h1 : (((([0, 0, 0, 0] ++ List.replicate (data.length + pad) (0 : ℕ)).set 0
        0x55).set 1 0xAA).set 2 header).set 3 lenField =
      [0x55, 0xAA, header, lenField] ++ List.replicate (data.length + pad) 0 := by
    simp [List.set]
  rw [h1]
  have h2 : (4 : ℕ) = ([0x55, 0xAA, header, lenField] : List ℕ).length := by simp
  rw [h2, setRange_append data [0x55, 0xAA, header, lenField] pad]

/-- The checksum input slice `buf[2:4+data_len]` is exactly
`[header, length, payload]`. -/
theorem send_core_shape (header lenField pad : ℕ) (data : List ℕ) :
    ((([0x55, 0xAA, header, lenField] ++ data ++ List.replicate pad 0).drop 2).take
        (2 + data.length)) = header :: lenField :: data := by
  have h1 : ([0x55, 0xAA, header, lenField] ++ data ++ List.replicate pad 0) =
      0x55 :: 0xAA :: (([header, lenField] ++ data) ++ List.replicate pad 0) := by
    simp
  rw [h1]
  have h2 : (0x55 :: 0xAA :: (([header, lenField] ++ data) ++
      List.replicate pad (0 : ℕ))).drop 2 =
      ([header, lenField] ++ data) ++ List.replicate pad 0 := rfl
  rw [h2]
  have h3 : (2 + data.length) = ([header, lenField] ++ data).length := by
    simp only [List.length_append, List.length_cons, List.length_nil] <;> omega
  rw [h3, List.take_left]
  simp

/-- Structure of every frame `send` actually builds (shared helper). -/
theorem send_structure_aux (c5 c16 : List ℕ → ℕ) (header : ℕ)
    (data f : List ℕ) (hs : send c5 c16 header data = some f) :
    (header &&& 0x20 ≠ 0 →
      f = [0x55, 0xAA, header, data.length + 4] ++ data ++
          [(c16 (header :: (data.length + 4) :: data) >>> 8) &&& 0xFF,
           c16 (header :: (data.length + 4) :: data) &&& 0xFF] ∧
      f.length = data.length + 6) ∧
    (header &&& 0x20 = 0 →
      f = [0x55, 0xAA, header, data.length + 3] ++ data ++
          [c5 (header :: (data.length + 3) :: data)] ∧
      f.length = data.length + 5) := by
  have hset1 : ∀ (E : List ℕ) (x v : ℕ), (E ++ [x]).set E.length v = E ++ [v] := by
    intro E x v
    simpa using set_append_len E [x] 0 v
  have hset2a : ∀ (E : List ℕ) (x y v : ℕ),
      (E ++ [x, y]).set E.length v = E ++ [v, y] := by
    intro E x y v
    simpa using set_append_len E [x, y] 0 v
  have hset2b : ∀ (E : List ℕ) (x y v : ℕ),
      (E ++ [x, y]).set (E.length + 1) v = E ++ [x, v] := by
    intro E x y v
    simpa [List.set] using set_append_len E [x, y] 1 v
  by_cases hb : header &&& 0x20 = 0
  · refine ⟨fun h => absurd hb h, fun _ => ?_⟩
    rw [send] at hs
    simp only [hb, ne_eq, not_true_eq_false, if_false, false_or, ite_false] at hs
    rw [show data.length + 5 = 4 + (data.length + 1) by omega,
      send_buf_shape header (data.length + 3) 1 data,
      send_core_shape header (data.length + 3) 1 data] at hs
    split at hs
    · have hf := (Option.some.inj hs).symm
      rw [show List.replicate 1 (0 : ℕ) = [0] from rfl] at hf
      rw [show 4 + data.length =
            (([0x55, 0xAA, header, data.length + 3] ++ data) : List ℕ).length by
          simp only [List.length_append, List.length_cons, List.length_nil] <;> omega] at hf
      rw [hset1] at hf
      constructor
      · exact hf
      · rw [hf]
        simp only [List.length_append, List.length_cons, List.length_nil]
        omega
    · exact absurd hs (by simp)
  · refine ⟨fun _ => ?_, fun h => absurd h hb⟩
    rw [send] at hs
    simp only [hb, ne_eq, not_false_eq_true, if_true, true_or, ite_true] at hs
    rw [show data.length + 6 = 4 + (data.length + 2) by omega,
      send_buf_shape header (data.length + 4) 2 data,
      send_core_shape header (data.length + 4) 2 data] at hs
    split at hs
    · have hf := (Option.some.inj hs).symm
      rw [show List.replicate 2 (0 : ℕ) = [0, 0] from rfl] at hf
      rw [show 4 + data.length =
            (([0x55, 0xAA, header, data.length + 4] ++ data) : List ℕ).length by
          simp only [List.length_append, List.length_cons, List.length_nil] <;> omega] at hf
      rw [hset2a] at hf
      rw [show 5 + data.length =
            (([0x55, 0xAA, header, data.length + 4] ++ data) : List ℕ).length + 1 by
          simp only [List.length_append, List.length_cons, List.length_nil] <;> omega] at hf
      rw [hset2b] at hf
      constructor
      · exact hf
      · rw [hf]
        simp only [List.length_append, List.length_cons, List.length_nil]
        omega
    · exact absurd hs (by simp)

/-- C1.  For every header byte and payload, every frame that `send` actually
builds is exactly `[0x55, 0xAA, header, length, payload..., checksum...]`:
for Job frames (class bit `0x20` set) the total length is `payload.len + 6`,
the embedded length field is `payload.len + 4` and the checksum is the 16-bit
CRC of `header :: length :: payload` appended big-endian as two bytes; for
Command frames the total length is `payload.len + 5`, the length field is
`payload.len + 3` and the checksum is the one-byte 5-bit CRC of the same
`header :: length :: payload` — never including the sync bytes or itself. -/
theorem send_frame_structure (c5 c16 : List ℕ → ℕ) (header : ℕ)
    (data f : List ℕ) (hs : send c5 c16 header data = some f) :
    (header &&& 0x20 ≠ 0 →
      f = [0x55, 0xAA, header, data.length + 4] ++ data ++
          [(c16 (header :: (data.length + 4) :: data) >>> 8) &&& 0xFF,
           c16 (header :: (data.length + 4) :: data) &&& 0xFF] ∧
      f.length = data.length + 6) ∧
    (header &&& 0x20 = 0 →
      f = [0x55, 0xAA, header, data.length + 3] ++ data ++
          [c5 (header :: (data.length + 3) :: data)] ∧
      f.length = data.length + 5) :=
  send_structure_aux c5 c16 header data f hs

/-- C1 witness: a concrete Job frame (header `0x21`, payload `[0x05]`,
checksum primitives instantiated with constants) is built by `send` and has
the claimed length. -/
theorem send_frame_structure_witness :
    send (fun _ => 17) (fun _ => 0xABCD) 0x21 [5] =
      some [0x55, 0xAA, 0x21, 5, 5, 0xAB, 0xCD] ∧
    ([0x55, 0xAA, 0x21, 5, 5, 0xAB, 0xCD] : List ℕ).length = [5].length + 6 := by
  refine ⟨by decide, ?_⟩
  exact ((send_frame_structure (fun _ => 17) (fun _ => 0xABCD) 0x21 [5]
    [0x55, 0xAA, 0x21, 5, 5, 0xAB, 0xCD] (by decide)).1 (by decide)).2

/-! ## Difficulty mask encoder (bm1370.py lines 170-186) -/

/-- The `while p * 2 <= n: p *= 2` loop of `BM1370._largest_power_of_two`,
with explicit fuel.  The loop doubles `p` starting from 1, so `n.toNat`
steps of fuel always suffice. -/
def lp2Aux : ℕ → ℤ → ℤ → ℤ
  | 0, _, p => p
  | fuel + 1, n, p => if 2 * p ≤ n then lp2Aux fuel n (2 * p) else p

/-- `BM1370._largest_power_of_two` (bm1370.py lines 179-183). -/
def _largest_power_of_two (n : ℤ) : ℤ := lp2Aux n.toNat n 1

/-- `BM1370._reverse_bits` (bm1370.py lines 185-186): format the byte as
eight binary digits, reverse the digit string and parse it back.  For
`byte < 256` this accumulates the bits of `byte` from least significant to
most significant. -/
def _reverse_bits (byte : ℕ) : ℕ :=
  (List.range 8).foldl (fun acc i => acc * 2 + (byte >>> i) % 2) 0

/-- `BM1370.get_difficulty_mask` (bm1370.py lines 170-177): the template
`[0x00, 0x14, 0x00, 0x00, 0x00, 0xFF]` with slots `5 - i` (for `i = 0..3`)
overwritten by the bit-reversed bytes of `largest_power_of_two(difficulty) - 1`.
The mask value is `≥ 0` (the largest power of two is `≥ 1`), so Python's
arithmetic shift and bitwise mask coincide with the `ℕ` operations on
`.toNat`. -/
def get_difficulty_mask (difficulty : ℤ) : List ℕ :=
  (List.range 4).foldl
    (fun mask i =>
      mask.set (5 - i)
        (_reverse_bits
          (((_largest_power_of_two difficulty - 1).toNat >>> (8 * i)) &&& 0xFF)))
    [0x00, 0x14, 0x00, 0x00, 0x00, 0xFF]

/-- The doubling loop, given enough fuel, returns a power-of-two multiple of
its starting point `p` that is at most `n` while its double exceeds `n`. -/
theorem lp2Aux_bounds :
    ∀ (fuel : ℕ) (n p : ℤ), 0 < p → p ≤ n → n < p * 2 ^ fuel →
      (∃ k : ℕ, lp2Aux fuel n p = p * 2 ^ k) ∧
      lp2Aux fuel n p ≤ n ∧ n < 2 * lp2Aux fuel n p := by
  intro fuel
  induction fuel with
  | zero =>
    intro n p hp hpn hlt
    simp only [pow_zero, mul_one] at hlt
    omega
  | succ fuel ih =>
    intro n p hp hpn hlt
    simp only [lp2Aux]
    by_cases h : 2 * p ≤ n
    · rw [if_pos h]
      have e : p * 2 ^ (fuel + 1) = 2 * p * 2 ^ fuel := by ring
      rw [e] at hlt
      obtain ⟨⟨k, hk⟩, hle, hlt2⟩ := ih n (2 * p) (by omega) h hlt
      exact ⟨⟨k + 1, by rw [hk]; ring⟩, hle, hlt2⟩
    · rw [if_neg h]
      exact ⟨⟨0, by ring⟩, hpn, by omega⟩

/-- For `d ≥ 1`, `_largest_power_of_two d` really is the largest power of two
that is `≤ d`. -/
theorem lp2_spec (d : ℤ) (hd : 1 ≤ d) :
    (∃ k : ℕ, _largest_power_of_two d = 2 ^ k) ∧
    _largest_power_of_two d ≤ d ∧ d < 2 * _largest_power_of_two d := by
  have h1 : d < (2 : ℤ) ^ d.toNat := by
    calc d = (d.toNat : ℤ) := (Int.toNat_of_nonneg (by omega)).symm
    _ < (2 : ℤ) ^ d.toNat := by exact_mod_cast Nat.lt_two_pow d.toNat
  have h1' : d < 1 * 2 ^ d.toNat := by rw [one_mul]; exact h1
  have h := lp2Aux_bounds d.toNat d 1 one_pos hd h1'
  simpa [_largest_power_of_two] using h

/-- C9.  On byte values the per-byte bit reversal is an involution and stays
within `[0, 255]`. -/
theorem reverse_bits_involution (b : ℕ) (hb : b < 256) :
    _reverse_bits (_reverse_bits b) = b ∧ _reverse_bits b < 256 := by
  revert hb
  revert b
  decide

/-- C9 witness at the byte `0xB6`. -/
theorem reverse_bits_involution_witness :
    _reverse_bits (_reverse_bits 0xB6) = 0xB6 ∧ _reverse_bits 0xB6 < 256 :=
  reverse_bits_involution 0xB6 (by decide)

/-- C6.  For every difficulty `≥ 1`: the mask value is
`(largest power of two ≤ difficulty) - 1` (the helper provably returns the
largest power of two `≤ d`), its four bytes — least significant first, each
bit-reversed within itself — land in template slots 5, 4, 3, 2 (slot 5 holds
the reversed least-significant byte), slots 0 and 1 keep `0x00` and `0x14`;
and concretely `get_difficulty_mask 16 = [0x00, 0x14, 0x00, 0x00, 0x00, 0xF0]`. -/
theorem difficulty_mask_encoding (d : ℤ) (hd : 1 ≤ d) :
    (∃ k : ℕ, _largest_power_of_two d = 2 ^ k) ∧
    _largest_power_of_two d ≤ d ∧
    d < 2 * _largest_power_of_two d ∧
    get_difficulty_mask d =
      [0x00, 0x14,
       _reverse_bits (((_largest_power_of_two d - 1).toNat >>> 24) &&& 0xFF),
       _reverse_bits (((_largest_power_of_two d - 1).toNat >>> 16) &&& 0xFF),
       _reverse_bits (((_largest_power_of_two d - 1).toNat >>> 8) &&& 0xFF),
       _reverse_bits ((_largest_power_of_two d - 1).toNat &&& 0xFF)] ∧
    get_difficulty_mask 16 = [0x00, 0x14, 0x00, 0x00, 0x00, 0xF0] := by
  obtain ⟨hpow, hle, hlt⟩ := lp2_spec d hd
  refine ⟨hpow, hle, hlt, rfl, by decide⟩

/-- C6 witness at difficulty 16. -/
theorem difficulty_mask_encoding_witness :
    (∃ k : ℕ, _largest_power_of_two 16 = 2 ^ k) ∧
    _largest_power_of_two 16 ≤ 16 ∧
    (16 : ℤ) < 2 * _largest_power_of_two 16 ∧
    get_difficulty_mask 16 =
      [0x00, 0x14,
       _reverse_bits (((_largest_power_of_two 16 - 1).toNat >>> 24) &&& 0xFF),
       _reverse_bits (((_largest_power_of_two 16 - 1).toNat >>> 16) &&& 0xFF),
       _reverse_bits (((_largest_power_of_two 16 - 1).toNat >>> 8) &&& 0xFF),
       _reverse_bits ((_largest_power_of_two 16 - 1).toNat &&& 0xFF)] ∧
    get_difficulty_mask 16 = [0x00, 0x14, 0x00, 0x00, 0x00, 0xF0] :=
  difficulty_mask_encoding 16 (by decide)

/-- C10.  For every difficulty `≤ 1`, zero and negatives included, the
doubling loop never runs, the helper returns 1, the mask value is 0 and the
encoder returns the template with four zero bytes — no error is raised. -/
theorem difficulty_mask_low_difficulty (d : ℤ) (hd : d ≤ 1) :
    _largest_power_of_two d = 1 ∧
    get_difficulty_mask d = [0x00, 0x14, 0x00, 0x00, 0x00, 0x00] := by
  have hl : _largest_power_of_two d = 1 := by
    unfold _largest_power_of_two
    cases h : d.toNat with
    | zero => rfl
    | succ n =>
      simp only [lp2Aux]
      rw [if_neg (show ¬ (2 * (1 : ℤ) ≤ d) by omega)]
  refine ⟨hl, ?_⟩
  unfold get_difficulty_mask
  rw [hl]
  decide

/-- C10 witness at difficulty `-3`. -/
theorem difficulty_mask_low_difficulty_witness :
    _largest_power_of_two (-3) = 1 ∧
    get_difficulty_mask (-3) = [0x00, 0x14, 0x00, 0x00, 0x00, 0x00] :=
  difficulty_mask_low_difficulty (-3) (by decide)

/-! ## PLL frequency solver (`BM1370.send_hash_frequency`, bm1370.py
lines 73-110).  The Python floats are modelled as exact rationals; Python 3
`round` rounds halves to even, made explicit below. -/

/-- Python 3 `round` on an exact rational: nearest integer, halves to even. -/
def pyRound (q : ℚ) : ℤ :=
  if q - q.floor < 1 / 2 then q.floor
  else if 1 / 2 < q - q.floor then q.floor + 1
  else if q.floor % 2 = 0 then q.floor else q.floor + 1

/-- The five mutable variables of the divider search:
`fb_divider`, `ref_divider`, `post_divider1`, `post_divider2`,
`min_difference`. -/
structure PLLResult where
  fb_divider : ℤ
  ref_divider : ℕ
  post_divider1 : ℕ
  post_divider2 : ℕ
  min_difference : ℚ
deriving DecidableEq

/-- Their initial values (`fb_divider = 0` is the not-found sentinel,
`min_difference = 10`). -/
def pllInit : PLLResult := ⟨0, 0, 0, 0, 10⟩

/-- The triple loop `for refdiv in range(2, 0, -1): for postdiv1 in
range(7, 0, -1): for postdiv2 in range(7, 0, -1)` in iteration order. -/
def pllTriples : List (ℕ × ℕ × ℕ) :=
  [2, 1].flatMap fun refdiv =>
    [7, 6, 5, 4, 3, 2, 1].flatMap fun postdiv1 =>
      [7, 6, 5, 4, 3, 2, 1].map fun postdiv2 => (refdiv, postdiv1, postdiv2)

/-- `temp_fb_divider = round((postdiv1 * postdiv2 * target_freq * refdiv)
/ 25.0)` for the triple `c = (refdiv, postdiv1, postdiv2)`. -/
def pllFb (target_freq : ℚ) (c : ℕ × ℕ × ℕ) : ℤ :=
  pyRound ((c.2.1 * c.2.2 * target_freq * c.1) / 25)

/-- `temp_freq = 25.0 * temp_fb_divider / (refdiv * postdiv2 * postdiv1)`. -/
def pllFreq (target_freq : ℚ) (c : ℕ × ℕ × ℕ) : ℚ :=
  25 * (pllFb target_freq c : ℚ) / (c.1 * c.2.2 * c.2.1)

/-- `freq_diff = abs(target_freq - temp_freq)`. -/
def pllDiff (target_freq : ℚ) (c : ℕ × ℕ × ℕ) : ℚ :=
  |target_freq - pllFreq target_freq c|

/-- One inner-loop body: guard `postdiv1 >= postdiv2`, accept only
`0xa0 <= temp_fb_divider <= 0xef`, and keep the candidate when
`freq_diff < min_difference and freq_diff < max_diff` (`max_diff = 1.0`). -/
def pllStep (target_freq : ℚ) (st : PLLResult) (c : ℕ × ℕ × ℕ) : PLLResult :=
  if c.2.2 ≤ c.2.1 then
    if 0xa0 ≤ pllFb target_freq c ∧ pllFb target_freq c ≤ 0xef then
      if pllDiff target_freq c < st.min_difference ∧ pllDiff target_freq c < 1 then
        ⟨pllFb target_freq c, c.1, c.2.1, c.2.2, pllDiff target_freq c⟩
      else st
    else st
  else st

/-- The complete divider search of `send_hash_frequency`: fold the loop body
over the triples in iteration order. -/
def send_hash_frequency_solve (target_freq : ℚ) : PLLResult :=
  pllTriples.foldl (pllStep target_freq) pllInit

/-- A triple passes all acceptance tests for this target (divider guard,
feedback range, deviation strictly under the 1.0 MHz cap). -/
def pllValidB (target_freq : ℚ) (c : ℕ × ℕ × ℕ) : Bool :=
  decide (c.2.2 ≤ c.2.1 ∧ 0xa0 ≤ pllFb target_freq c ∧
    pllFb target_freq c ≤ 0xef ∧ pllDiff target_freq c < 1)

/-- The acceptable candidates, in iteration order. -/
def pllValidCands (target_freq : ℚ) : List (ℕ × ℕ × ℕ) :=
  pllTriples.filter (pllValidB target_freq)

/-- The solver state recording candidate `c`. -/
def pllCandResult (target_freq : ℚ) (c : ℕ × ℕ × ℕ) : PLLResult :=
  ⟨pllFb target_freq c, c.1, c.2.1, c.2.2, pllDiff target_freq c⟩

theorem pllStep_invalid (t : ℚ) (st : PLLResult) (c : ℕ × ℕ × ℕ)
    (h : pllValidB t c = false) : pllStep t st c = st := by
  rw [pllValidB, decide_eq_false_iff_not] at h
  by_cases h1 : c.2.2 ≤ c.2.1
  · by_cases h2 : 0xa0 ≤ pllFb t c ∧ pllFb t c ≤ 0xef
    · have h3 : ¬ pllDiff t c < 1 := fun hc => h ⟨h1, h2.1, h2.2, hc⟩
      rw [pllStep, if_pos h1, if_pos h2, if_neg (fun hc => h3 hc.2)]
    · rw [pllStep, if_pos h1, if_neg h2]
  · rw [pllStep, if_neg h1]

theorem pllStep_valid (t : ℚ) (st : PLLResult) (c : ℕ × ℕ × ℕ)
    (h : pllValidB t c = true) :
    pllStep t st c =
      if pllDiff t c < st.min_difference then pllCandResult t c else st := by
  rw [pllValidB, decide_eq_true_eq] at h
  obtain ⟨h1, h2, h3, h4⟩ := h
  rw [pllStep, if_pos h1, if_pos ⟨h2, h3⟩]
  by_cases h5 : pllDiff t c < st.min_difference
  · rw [if_pos ⟨h5, h4⟩, if_pos h5, pllCandResult]
  · rw [if_neg (fun hc => h5 hc.1), if_neg h5]

theorem pllValid_diff_lt_one (t : ℚ) (c : ℕ × ℕ × ℕ)
    (h : pllValidB t c = true) : pllDiff t c < 1 := by
  rw [pllValidB, decide_eq_true_eq] at h
  exact h.2.2.2

/-- Invariant of the strict-improvement fold: after any prefix, the state is
either still the initial sentinel (no candidate accepted yet) or records the
first candidate attaining the minimum deviation among the acceptable
candidates seen so far. -/
theorem pllFold_inv (t : ℚ) (l : List (ℕ × ℕ × ℕ)) :
    (l.filter (pllValidB t) = [] ∧ l.foldl (pllStep t) pllInit = pllInit) ∨
    (∃ l₁ c l₂,
      l.filter (pllValidB t) = l₁ ++ c :: l₂ ∧
      l.foldl (pllStep t) pllInit = pllCandResult t c ∧
      (∀ x ∈ l₁, pllDiff t c < pllDiff t x) ∧
      (∀ x ∈ l₂, pllDiff t c ≤ pllDiff t x)) := by
  induction l using List.reverseRecOn with
  | nil => left; exact ⟨rfl, rfl⟩
  | append_singleton l x ih =>
    rw [List.foldl_append, List.filter_append]
    rcases ih with ⟨hf, hst⟩ | ⟨l₁, c, l₂, hf, hst, hlt, hle⟩
    · rw [hf, hst]
      by_cases hv : pllValidB t x = true
      · right
        refine ⟨[], x, [], ?_, ?_, by simp, by simp⟩
        · simp [List.filter_cons, hv]
        · have hd : pllDiff t x < pllInit.min_difference :=
            lt_trans (pllValid_diff_lt_one t x hv) (by norm_num [pllInit])
          simp only [List.foldl_cons, List.foldl_nil]
          rw [pllStep_valid t pllInit x hv, if_pos hd]
      · left
        rw [Bool.not_eq_true] at hv
        refine ⟨?_, ?_⟩
        · simp [List.filter_cons, hv]
        · simp only [List.foldl_cons, List.foldl_nil]
          rw [pllStep_invalid t pllInit x hv]
    · rw [hf, hst]
      by_cases hv : pllValidB t x = true
      · by_cases hd : pllDiff t x < pllDiff t c
        · right
          refine ⟨l₁ ++ c :: l₂, x, [], ?_, ?_, ?_, by simp⟩
          · simp [List.filter_cons, hv]
          · simp only [List.foldl_cons, List.foldl_nil]
            rw [pllStep_valid t _ x hv, if_pos (by exact hd)]
          · intro y hy
            rcases List.mem_append.mp hy with hy1 | hy2
            · exact lt_trans hd (hlt y hy1)
            · rcases List.mem_cons.mp hy2 with rfl | hy3
              · exact hd
              · exact lt_of_lt_of_le hd (hle y hy3)
        · right
          refine ⟨l₁, c, l₂ ++ [x], ?_, ?_, hlt, ?_⟩
          · simp [List.filter_cons, hv]
          · simp only [List.foldl_cons, List.foldl_nil]
            rw [pllStep_valid t _ x hv, if_neg (by exact hd)]
          · intro y hy
            rcases List.mem_append.mp hy with hy1 | hy2
            · exact hle y hy1
            · rcases List.mem_cons.mp hy2 with rfl | hy3
              · exact not_lt.mp hd
              · exact absurd hy3 (List.not_mem_nil y)
      · right
        rw [Bool.not_eq_true] at hv
        refine ⟨l₁, c, l₂, ?_, ?_, hlt, hle⟩
        · simp [List.filter_cons, hv]
        · simp only [List.foldl_cons, List.foldl_nil]
          rw [pllStep_invalid t _ x hv]

/-- The iteration space is exactly `ref ∈ {2, 1}`, `pd1 ∈ [1, 7]`,
`pd2 ∈ [1, 7]`. -/
theorem mem_pllTriples (x : ℕ × ℕ × ℕ) :
    x ∈ pllTriples ↔
      ((x.1 = 2 ∨ x.1 = 1) ∧ 1 ≤ x.2.1 ∧ x.2.1 ≤ 7 ∧ 1 ≤ x.2.2 ∧ x.2.2 ≤ 7) := by
  obtain ⟨r, p1, p2⟩ := x
  simp only [pllTriples, List.mem_flatMap, List.mem_map, List.mem_cons,
    List.not_mem_nil, or_false, Prod.mk.injEq]
  constructor
  · rintro ⟨a, ha, b, hb, c', hc', rfl, rfl, rfl⟩
    exact ⟨ha, by omega, by omega, by omega, by omega⟩
  · rintro ⟨hr, hp1a, hp1b, hp2a, hp2b⟩
    exact ⟨r, hr, p1, by omega, p2, by omega, rfl, rfl, rfl⟩

/-- C4.  Whenever the solver returns a divider set (`fb_divider ≠ 0`), it is
the acceptable candidate with minimum deviation, and among deviation ties the
first one in the fixed descending iteration order; the acceptable candidates
are exactly the triples with `ref ∈ {2, 1}`, `pd1, pd2 ∈ [1, 7]`,
`pd1 ≥ pd2`, feedback divider (the Python rounding of
`pd1 * pd2 * target * ref / 25`) within `[0xA0, 0xEF]` and deviation
strictly below 1.0 MHz. -/
theorem pll_solver_first_minimal (t : ℚ)
    (h : (send_hash_frequency_solve t).fb_divider ≠ 0) :
    ∃ l₁ c l₂,
      pllValidCands t = l₁ ++ c :: l₂ ∧
      send_hash_frequency_solve t = pllCandResult t c ∧
      (∀ x ∈ l₁, pllDiff t c < pllDiff t x) ∧
      (∀ x ∈ l₂, pllDiff t c ≤ pllDiff t x) ∧
      (∀ x : ℕ × ℕ × ℕ, x ∈ pllValidCands t ↔
        ((x.1 = 2 ∨ x.1 = 1) ∧ 1 ≤ x.2.1 ∧ x.2.1 ≤ 7 ∧ 1 ≤ x.2.2 ∧ x.2.2 ≤ 7 ∧
         x.2.2 ≤ x.2.1 ∧ 0xa0 ≤ pllFb t x ∧ pllFb t x ≤ 0xef ∧
         pllDiff t x < 1)) := by
  rcases pllFold_inv t pllTriples with ⟨hf, hst⟩ | ⟨l₁, c, l₂, hf, hst, hlt, hle⟩
  · exfalso
    apply h
    show (pllTriples.foldl (pllStep t) pllInit).fb_divider = 0
    rw [hst]
    rfl
  · refine ⟨l₁, c, l₂, hf, hst, hlt, hle, ?_⟩
    intro x
    rw [pllValidCands, List.mem_filter, mem_pllTriples, pllValidB,
      decide_eq_true_eq]
    constructor
    · rintro ⟨⟨hr, h1a, h1b, h2a, h2b⟩, hg, hfb1, hfb2, hd⟩
      exact ⟨hr, h1a, h1b, h2a, h2b, hg, hfb1, hfb2, hd⟩
    · rintro ⟨hr, h1a, h1b, h2a, h2b, hg, hfb1, hfb2, hd⟩
      exact ⟨⟨hr, h1a, h1b, h2a, h2b⟩, hg, hfb1, hfb2, hd⟩

/-- C4 witness at target 400 MHz: the solver does return a divider set
there, so the minimality/tie-break conclusion holds at a concrete input. -/
theorem pll_solver_first_minimal_witness :
    (send_hash_frequency_solve 400).fb_divider ≠ 0 ∧
    (∃ l₁ c l₂,
      pllValidCands 400 = l₁ ++ c :: l₂ ∧
      send_hash_frequency_solve 400 = pllCandResult 400 c ∧
      (∀ x ∈ l₁, pllDiff 400 c < pllDiff 400 x) ∧
      (∀ x ∈ l₂, pllDiff 400 c ≤ pllDiff 400 x) ∧
      (∀ x : ℕ × ℕ × ℕ, x ∈ pllValidCands 400 ↔
        ((x.1 = 2 ∨ x.1 = 1) ∧ 1 ≤ x.2.1 ∧ x.2.1 ≤ 7 ∧ 1 ≤ x.2.2 ∧ x.2.2 ≤ 7 ∧
         x.2.2 ≤ x.2.1 ∧ 0xa0 ≤ pllFb 400 x ∧ pllFb 400 x ≤ 0xef ∧
         pllDiff 400 x < 1))) :=
  ⟨by decide, pll_solver_first_minimal 400 (by decide)⟩

/-- C8.  For target 400.0 MHz the solver finds a divider set: the feedback
divider is in `[0xA0, 0xEF]` and the achieved frequency
`25 * fb / (ref * pd2 * pd1)` deviates from 400.0 by strictly less than
1.0 MHz.  (Concretely it returns `fb = 224, ref = 2, pd1 = 7, pd2 = 1`,
hitting 400.0 exactly.) -/
theorem pll_solver_400 :
    (send_hash_frequency_solve 400).fb_divider ≠ 0 ∧
    0xa0 ≤ (send_hash_frequency_solve 400).fb_divider ∧
    (send_hash_frequency_solve 400).fb_divider ≤ 0xef ∧
    |(400 : ℚ) - 25 * ((send_hash_frequency_solve 400).fb_divider : ℚ) /
        (((send_hash_frequency_solve 400).ref_divider : ℚ) *
         ((send_hash_frequency_solve 400).post_divider2 : ℚ) *
         ((send_hash_frequency_solve 400).post_divider1 : ℚ))| < 1 := by
  have h : send_hash_frequency_solve 400 = ⟨224, 2, 7, 1, 0⟩ := by decide
  rw [h]
  refine ⟨by decide, by decide, by decide, by decide⟩

/-! ## Chip enumeration (`BM1370.count_asic_chips`, bm1370.py lines 112-123)
and the initialization sequencer (`BM1370.send_init`, lines 125-168).

The transport is a stream `reads : ℕ → Option (List ℕ)` giving the result
of the n-th `serial_rx_func(chip_id_response_length, 5000)` call; `none`
models Python `None` (the only value the loop breaks on), `some bytes`
models a bytes result, `some []` the empty `b''` that the pyserial-backed
`serial_rx_func` of bitaxerawpy.py returns on timeout.  The unbounded
`while True` loop takes explicit fuel; a `none` result from the fuelled
loop means the Python loop has not returned within that many reads.
Transmitted frames are recorded as a trace of byte lists; each `send` call
contributes the frame `frameOf` (the value proved in `send_eq_frameOf` to
be the one `send` builds), and `send_simple` contributes its raw bytes. -/

/-- The header constants of bm1370.py lines 10-20. -/
def TYPE_JOB : ℕ := 0x20

def TYPE_CMD : ℕ := 0x40

def GROUP_SINGLE : ℕ := 0x00

def GROUP_ALL : ℕ := 0x10

def CMD_SETADDRESS : ℕ := 0x00

def CMD_WRITE : ℕ := 0x01

def CMD_READ : ℕ := 0x02

def CMD_INACTIVE : ℕ := 0x03

/-- `self.chip_id_response = "aa5513700000"` as a character list. -/
def chip_id_response : List Char :=
  ['a', 'a', '5', '5', '1', '3', '7', '0', '0', '0', '0', '0']

/-- `binascii.hexlify(data).decode('utf8')`: two lowercase hex digits per
byte. -/
def hexlify (data : List ℕ) : List Char :=
  data.flatMap fun b => [Nat.digitChar (b / 16), Nat.digitChar (b % 16)]

/-- `self.chip_id_response in binascii.hexlify(data).decode('utf8')`. -/
def sigMatch (data : List ℕ) : Bool :=
  decide (chip_id_response <:+: hexlify data)

/-- The `while True` read loop of `count_asic_chips`: break (returning the
counter) only when a read yields `None`; otherwise count a signature match
and continue. -/
def countLoop (reads : ℕ → Option (List ℕ)) : ℕ → ℕ → ℕ → Option ℕ
  | 0, _, _ => none
  | fuel + 1, idx, chip_counter =>
    match reads idx with
    | none => some chip_counter
    | some data =>
      countLoop reads fuel (idx + 1)
        (if sigMatch data then chip_counter + 1 else chip_counter)

section Sequencer

variable (crc5 crc16_false : List ℕ → ℕ)

/-- The frame `send` transmits for a header/payload pair (see
`send_eq_frameOf`); used to record the transmission trace of the
sequencer. -/
def frameOf (header : ℕ) (data : List ℕ) : List ℕ :=
  if header &&& 0x20 ≠ 0 then
    [0x55, 0xAA, header, data.length + 4] ++ data ++
      [(crc16_false (header :: (data.length + 4) :: data) >>> 8) &&& 0xFF,
       crc16_false (header :: (data.length + 4) :: data) &&& 0xFF]
  else
    [0x55, 0xAA, header, data.length + 3] ++ data ++
      [crc5 (header :: (data.length + 3) :: data)]

/-- Whenever `send` builds a frame it is exactly `frameOf`. -/
theorem send_eq_frameOf (h : ℕ) (d f : List ℕ)
    (hs : send crc5 crc16_false h d = some f) :
    f = frameOf crc5 crc16_false h d := by
  obtain ⟨hj, hc⟩ := send_structure_aux crc5 crc16_false h d f hs
  by_cases hb : h &&& 0x20 = 0
  · rw [frameOf, if_neg (not_not_intro hb)]
    exact (hc hb).1
  · rw [frameOf, if_pos hb]
    exact (hj hb).1

/-- Byte 2 of any `frameOf` frame is the header. -/
theorem frameOf_getD2 (h : ℕ) (d : List ℕ) :
    (frameOf crc5 crc16_false h d).getD 2 0 = h := by
  rw [frameOf]
  split <;> rfl

/-- `BM1370.set_version_mask`: payload `[0x00, 0xA4, 0x90, 0x00,
version_byte0, version_byte1]` for `versions_to_roll = version_mask >> 13`. -/
def set_version_mask_data (version_mask : ℕ) : List ℕ :=
  [0x00, 0xA4, 0x90, 0x00, ((version_mask >>> 13) >>> 8) &&& 0xFF,
   (version_mask >>> 13) &&& 0xFF]

/-- `BM1370.count_asic_chips`: broadcast the read command, run the read
loop, broadcast chain-inactive, and return the counter together with the
frames transmitted.  The `expected_count` argument is accepted and never
used, exactly as in the source.  When the loop does not return within the
given fuel, no inactive frame is recorded and the count is `none`. -/
def count_asic_chips (reads : ℕ → Option (List ℕ)) (fuel : ℕ)
    (expected_count : ℤ) : Option ℕ × List (List ℕ) :=
  match countLoop reads fuel 0 0 with
  | none =>
    (none,
     [frameOf crc5 crc16_false (TYPE_CMD ||| GROUP_ALL ||| CMD_READ) [0x00, 0x00]])
  | some chip_counter =>
    (some chip_counter,
     [frameOf crc5 crc16_false (TYPE_CMD ||| GROUP_ALL ||| CMD_READ) [0x00, 0x00],
      frameOf crc5 crc16_false (TYPE_CMD ||| GROUP_ALL ||| CMD_INACTIVE) [0x00, 0x00]])

/-- `address_interval = int(256 / chip_counter)` (bm1370.py line 139): float
division truncated towards zero, which for the counts reachable here equals
natural floor division. -/
def address_interval (chip_counter : ℕ) : ℕ := 256 / chip_counter

/-- The chip addresses assigned by the loop of bm1370.py lines 140-141:
chip `i` gets `i * address_interval`. -/
def chipAddresses (chip_counter : ℕ) : List ℕ :=
  (List.range chip_counter).map fun i => i * address_interval chip_counter

/-- The `freqbuf` payload of `send_hash_frequency` after the solver state is
written into it: `[0x00, 0x08, vco, fb, ref, postdiv-nibbles]`, byte 2
becoming `0x50` when `fb * 25 / ref >= 2400`. -/
def freqbuf (target_freq : ℚ) : List ℕ :=
  [0x00, 0x08,
   if 2400 ≤ ((send_hash_frequency_solve target_freq).fb_divider : ℚ) * 25 /
       ((send_hash_frequency_solve target_freq).ref_divider : ℚ) then 0x50
   else 0x40,
   (send_hash_frequency_solve target_freq).fb_divider.toNat,
   (send_hash_frequency_solve target_freq).ref_divider,
   ((((send_hash_frequency_solve target_freq).post_divider1 - 1) &&& 0xF) <<< 4) +
     (((send_hash_frequency_solve target_freq).post_divider2 - 1) &&& 0xF)]

/-- The frames transmitted by `send_hash_frequency`: none when the solver
keeps its `fb_divider = 0` sentinel (the function only logs an error and
returns), otherwise the single broadcast write of `freqbuf`. -/
def send_hash_frequency_frames (target_freq : ℚ) : List (List ℕ) :=
  if (send_hash_frequency_solve target_freq).fb_divider = 0 then []
  else
    [frameOf crc5 crc16_false (TYPE_CMD ||| GROUP_ALL ||| CMD_WRITE)
      (freqbuf target_freq)]

end Sequencer

/-- Result of `send_init`: normal return of the chip count, the
`Exception("No ASIC chips found")` raise, or the enumeration loop not
returning within the provided fuel. -/
inductive InitOutcome where
  | ok (chips : ℕ)
  | noChips
  | outOfFuel
deriving DecidableEq

section Sequencer2

variable (crc5 crc16_false : List ℕ → ℕ)

/-- `BM1370.send_init` (bm1370.py lines 125-168): the outcome and the full
ordered trace of transmitted frames.  Three version-mask broadcasts, the raw
reset frame (`send_simple`), enumeration, then — when the chip count is
nonzero — version mask, two global writes, chain inactive, one set-address
command per chip, global writes, the difficulty mask, per-chip tuning
writes, four global writes, the frequency frames and the final write,
returning the chip count. -/
def send_init (reads : ℕ → Option (List ℕ)) (fuel : ℕ) (frequency : ℚ)
    (expected : ℤ) (difficulty : ℤ) : InitOutcome × List (List ℕ) :=
  let vm := frameOf crc5 crc16_false (TYPE_CMD ||| GROUP_ALL ||| CMD_WRITE)
    (set_version_mask_data 0xFFFFFFFF)
  let inactive := frameOf crc5 crc16_false
    (TYPE_CMD ||| GROUP_ALL ||| CMD_INACTIVE) [0x00, 0x00]
  let w := fun d => frameOf crc5 crc16_false
    (TYPE_CMD ||| GROUP_ALL ||| CMD_WRITE) d
  let ws := fun d => frameOf crc5 crc16_false
    (TYPE_CMD ||| GROUP_SINGLE ||| CMD_WRITE) d
  let pre := [vm, vm, vm, [0x55, 0xAA, 0x52, 0x05, 0x00, 0x00, 0x0A]]
  match count_asic_chips crc5 crc16_false reads fuel expected with
  | (none, fs) => (.outOfFuel, pre ++ fs)
  | (some 0, fs) => (.noChips, pre ++ fs)
  | (some (n + 1), fs) =>
    let chip_counter := n + 1
    (.ok chip_counter,
     pre ++ fs ++
     [vm, w [0x00, 0xA8, 0x00, 0x07, 0x00, 0x00],
      w [0x00, 0x18, 0xF0, 0x00, 0xC1, 0x00], inactive] ++
     (chipAddresses chip_counter).map (fun addr =>
        frameOf crc5 crc16_false (TYPE_CMD ||| GROUP_SINGLE ||| CMD_SETADDRESS)
          [addr, 0x00]) ++
     [w [0x00, 0x3C, 0x80, 0x00, 0x8B, 0x00],
      w [0x00, 0x3C, 0x80, 0x00, 0x80, 0x0C],
      w (get_difficulty_mask difficulty),
      w [0x00, 0x58, 0x00, 0x01, 0x11, 0x11]] ++
     (chipAddresses chip_counter).flatMap (fun addr =>
        [ws [addr, 0xA8, 0x00, 0x07, 0x01, 0xF0],
         ws [addr, 0x18, 0xF0, 0x00, 0xC1, 0x00],
         ws [addr, 0x3C, 0x80, 0x00, 0x8B, 0x00],
         ws [addr, 0x3C, 0x80, 0x00, 0x80, 0x0C],
         ws [addr, 0x3C, 0x80, 0x00, 0x82, 0xAA]]) ++
     [w [0x00, 0xB9, 0x00, 0x00, 0x44, 0x80],
      w [0x00, 0x54, 0x00, 0x00, 0x00, 0x02],
      w [0x00, 0xB9, 0x00, 0x00, 0x44, 0x80],
      w [0x00, 0x3C, 0x80, 0x00, 0x8D, 0xEE]] ++
     send_hash_frequency_frames crc5 crc16_false frequency ++
     [w [0x00, 0x10, 0x00, 0x00, 0x1E, 0xB5]])

end Sequencer2

/-- C2.  The enumeration loop can only break on a `None` read.  The
transport contract (bitaxerawpy.py `serial_rx_func`, delegating to
`serial.read`) yields a bytes object on every call — empty bytes `b''` on
timeout, never `None`.  Against any such never-`None` transport (in
particular one whose reads all come back empty) the loop never returns, no
matter how many reads it is allowed: the claimed termination on an empty
read does not happen. -/
theorem count_loop_never_terminates_without_none (f : ℕ → List ℕ)
    (fuel idx chip_counter : ℕ) :
    countLoop (fun k => some (f k)) fuel idx chip_counter = none := by
  induction fuel generalizing idx chip_counter with
  | zero => rfl
  | succ fuel ih =>
    show countLoop (fun k => some (f k)) fuel (idx + 1) _ = none
    exact ih (idx + 1) _

/-- C7.  When enumeration counts zero chips, `send_init` raises
`No ASIC chips found`: the outcome is `noChips`, the trace is exactly the
three version-mask frames, the raw reset frame, the broadcast read and the
chain-inactive frame — and no set-address (or any later) frame is ever
transmitted. -/
theorem no_chips_aborts (crc5 crc16_false : List ℕ → ℕ)
    (reads : ℕ → Option (List ℕ)) (fuel : ℕ) (frequency : ℚ)
    (expected : ℤ) (difficulty : ℤ)
    (h : countLoop reads fuel 0 0 = some 0) :
    send_init crc5 crc16_false reads fuel frequency expected difficulty =
      (InitOutcome.noChips,
       [frameOf crc5 crc16_false (TYPE_CMD ||| GROUP_ALL ||| CMD_WRITE)
          (set_version_mask_data 0xFFFFFFFF),
        frameOf crc5 crc16_false (TYPE_CMD ||| GROUP_ALL ||| CMD_WRITE)
          (set_version_mask_data 0xFFFFFFFF),
        frameOf crc5 crc16_false (TYPE_CMD ||| GROUP_ALL ||| CMD_WRITE)
          (set_version_mask_data 0xFFFFFFFF),
        [0x55, 0xAA, 0x52, 0x05, 0x00, 0x00, 0x0A],
        frameOf crc5 crc16_false (TYPE_CMD ||| GROUP_ALL ||| CMD_READ)
          [0x00, 0x00],
        frameOf crc5 crc16_false (TYPE_CMD ||| GROUP_ALL ||| CMD_INACTIVE)
          [0x00, 0x00]]) ∧
    ∀ fr ∈ (send_init crc5 crc16_false reads fuel frequency expected
        difficulty).2,
      fr.getD 2 0 ≠ TYPE_CMD ||| GROUP_SINGLE ||| CMD_SETADDRESS := by
  have heq : send_init crc5 crc16_false reads fuel frequency expected
      difficulty =
      (InitOutcome.noChips,
       [frameOf crc5 crc16_false (TYPE_CMD ||| GROUP_ALL ||| CMD_WRITE)
          (set_version_mask_data 0xFFFFFFFF),
        frameOf crc5 crc16_false (TYPE_CMD ||| GROUP_ALL ||| CMD_WRITE)
          (set_version_mask_data 0xFFFFFFFF),
        frameOf crc5 crc16_false (TYPE_CMD ||| GROUP_ALL ||| CMD_WRITE)
          (set_version_mask_data 0xFFFFFFFF),
        [0x55, 0xAA, 0x52, 0x05, 0x00, 0x00, 0x0A],
        frameOf crc5 crc16_false (TYPE_CMD ||| GROUP_ALL ||| CMD_READ)
          [0x00, 0x00],
        frameOf crc5 crc16_false (TYPE_CMD ||| GROUP_ALL ||| CMD_INACTIVE)
          [0x00, 0x00]]) := by
    rw [send_init, count_asic_chips, h]
    rfl
  refine ⟨heq, ?_⟩
  rw [heq]
  intro fr hfr
  simp only [List.mem_cons, List.not_mem_nil, or_false] at hfr
  rcases hfr with rfl | rfl | rfl | rfl | rfl | rfl
  · rw [frameOf_getD2]; decide
  · rw [frameOf_getD2]; decide
  · rw [frameOf_getD2]; decide
  · decide
  · rw [frameOf_getD2]; decide
  · rw [frameOf_getD2]; decide

/-- C7 witness: a transport whose very first read returns `None` makes the
loop return count 0, and `send_init` aborts with `noChips` having sent only
the six pre-enumeration/enumeration frames. -/
theorem no_chips_aborts_witness :
    send_init (fun _ => 0) (fun _ => 0) (fun _ => none) 1 400 1 16 =
      (InitOutcome.noChips,
       [frameOf (fun _ => 0) (fun _ => 0) (TYPE_CMD ||| GROUP_ALL ||| CMD_WRITE)
          (set_version_mask_data 0xFFFFFFFF),
        frameOf (fun _ => 0) (fun _ => 0) (TYPE_CMD ||| GROUP_ALL ||| CMD_WRITE)
          (set_version_mask_data 0xFFFFFFFF),
        frameOf (fun _ => 0) (fun _ => 0) (TYPE_CMD ||| GROUP_ALL ||| CMD_WRITE)
          (set_version_mask_data 0xFFFFFFFF),
        [0x55, 0xAA, 0x52, 0x05, 0x00, 0x00, 0x0A],
        frameOf (fun _ => 0) (fun _ => 0) (TYPE_CMD ||| GROUP_ALL ||| CMD_READ)
          [0x00, 0x00],
        frameOf (fun _ => 0) (fun _ => 0) (TYPE_CMD ||| GROUP_ALL ||| CMD_INACTIVE)
          [0x00, 0x00]]) ∧
    ∀ fr ∈ (send_init (fun _ => 0) (fun _ => 0) (fun _ => none) 1 400 1 16).2,
      fr.getD 2 0 ≠ TYPE_CMD ||| GROUP_SINGLE ||| CMD_SETADDRESS :=
  no_chips_aborts (fun _ => 0) (fun _ => 0) (fun _ => none) 1 400 1 16 (by decide)

/-- An 11-byte identification response whose hex dump contains the
`aa5513700000` signature. -/
def chipRespExample : List ℕ :=
  [0xAA, 0x55, 0x13, 0x70, 0x00, 0x00, 0x00, 0x00, 0x00, 0x00, 0x00]

/-- A transport with exactly one responding chip: the first read returns
the identification response, every later read returns `None`. -/
def readsOneChip : ℕ → Option (List ℕ) :=
  fun i => if i = 0 then some chipRespExample else none

/-- C3.  For target frequency 0.0 the solver finds no divider set, yet
`send_init` does not fail: with one chip discovered it runs the whole
sequence, returns the chip count (`ok 1`), and the only missing frames are
the frequency-configuration ones — no transmitted frame carries the
register `0x08` payload (`freqbuf` is the only payload whose second byte is
`0x08`).  `send_hash_frequency` merely logs and returns, contradicting the
claimed fatal caller-visible error. -/
theorem send_init_completes_despite_pll_failure :
    (send_init (fun _ => 0) (fun _ => 0) readsOneChip 2 0 1 16).1 =
      InitOutcome.ok 1 ∧
    send_hash_frequency_frames (fun _ => 0) (fun _ => 0) 0 = [] ∧
    ∀ fr ∈ (send_init (fun _ => 0) (fun _ => 0) readsOneChip 2 0 1 16).2,
      fr.getD 5 0 ≠ 0x08 := by
  decide

theorem filter_map_self {α β} (p : β → Bool) (f : α → β) (l : List α)
    (h : ∀ a, p (f a) = true) : (l.map f).filter p = l.map f := by
  induction l with
  | nil => rfl
  | cons a l ih => simp [List.filter_cons, h, ih]

theorem filter_flatMap_nil {α β} (p : β → Bool) (f : α → List β) (l : List α)
    (h : ∀ a, (f a).filter p = []) : (l.flatMap f).filter p = [] := by
  induction l with
  | nil => rfl
  | cons a l ih =>
    rw [List.flatMap_cons, List.filter_append, h, ih]
    rfl

/-- The trace predicate selecting set-address frames (header
`TYPE_CMD | GROUP_SINGLE | CMD_SETADDRESS`, the header `set_chip_address`
passes to `send`). -/
def isSetAddressFrame (fr : List ℕ) : Bool :=
  fr.getD 2 0 == TYPE_CMD ||| GROUP_SINGLE ||| CMD_SETADDRESS

/-- C5 (amended).  For every chip count in `[1, 256]` produced by the
enumeration loop, the addressing step of `send_init` transmits exactly one
set-address frame per chip — chip `i` getting address
`i * (256 / chip_count)` — those addresses are pairwise distinct and all
below 256, and for three chips they are exactly `[0, 85, 170]`.  (For
counts above 256 the interval collapses to 0 and distinctness fails: see
the 257-chip counterexample.) -/
theorem chip_addressing_amended (crc5 crc16_false : List ℕ → ℕ)
    (reads : ℕ → Option (List ℕ)) (fuel : ℕ) (frequency : ℚ)
    (expected : ℤ) (difficulty : ℤ) (c : ℕ)
    (hc : countLoop reads fuel 0 0 = some c) (h1 : 1 ≤ c) (h2 : c ≤ 256) :
    ((send_init crc5 crc16_false reads fuel frequency expected
        difficulty).2.filter isSetAddressFrame) =
      (chipAddresses c).map (fun addr =>
        frameOf crc5 crc16_false (TYPE_CMD ||| GROUP_SINGLE ||| CMD_SETADDRESS)
          [addr, 0x00]) ∧
    chipAddresses c = (List.range c).map (fun i => i * (256 / c)) ∧
    (chipAddresses c).Nodup ∧
    (∀ a ∈ chipAddresses c, a < 256) ∧
    (c = 3 → chipAddresses c = [0, 85, 170]) := by
  obtain ⟨n, rfl⟩ : ∃ n, c = n + 1 := ⟨c - 1, by omega⟩
  have hq1 : 1 ≤ address_interval (n + 1) := by
    rw [address_interval]
    exact (Nat.one_le_div_iff (by omega)).mpr h2
  have pA : ∀ d : List ℕ,
      isSetAddressFrame (frameOf crc5 crc16_false
        (TYPE_CMD ||| GROUP_SINGLE ||| CMD_SETADDRESS) d) = true := by
    intro d; rw [isSetAddressFrame, frameOf_getD2]; decide
  have pW : ∀ d : List ℕ,
      isSetAddressFrame (frameOf crc5 crc16_false
        (TYPE_CMD ||| GROUP_ALL ||| CMD_WRITE) d) = false := by
    intro d; rw [isSetAddressFrame, frameOf_getD2]; decide
  have pS : ∀ d : List ℕ,
      isSetAddressFrame (frameOf crc5 crc16_false
        (TYPE_CMD ||| GROUP_SINGLE ||| CMD_WRITE) d) = false := by
    intro d; rw [isSetAddressFrame, frameOf_getD2]; decide
  have pR : ∀ d : List ℕ,
      isSetAddressFrame (frameOf crc5 crc16_false
        (TYPE_CMD ||| GROUP_ALL ||| CMD_READ) d) = false := by
    intro d; rw [isSetAddressFrame, frameOf_getD2]; decide
  have pI : ∀ d : List ℕ,
      isSetAddressFrame (frameOf crc5 crc16_false
        (TYPE_CMD ||| GROUP_ALL ||| CMD_INACTIVE) d) = false := by
    intro d; rw [isSetAddressFrame, frameOf_getD2]; decide
  have hraw : isSetAddressFrame [0x55, 0xAA, 0x52, 0x05, 0x00, 0x00, 0x0A] =
      false := by decide
  have hfreq :
      (send_hash_frequency_frames crc5 crc16_false frequency).filter
        isSetAddressFrame = [] := by
    rw [send_hash_frequency_frames]
    split
    · rfl
    · simp [List.filter_cons, pW]
  have htun : ∀ addr : ℕ,
      ([frameOf crc5 crc16_false (TYPE_CMD ||| GROUP_SINGLE ||| CMD_WRITE)
          [addr, 0xA8, 0x00, 0x07, 0x01, 0xF0],
        frameOf crc5 crc16_false (TYPE_CMD ||| GROUP_SINGLE ||| CMD_WRITE)
          [addr, 0x18, 0xF0, 0x00, 0xC1, 0x00],
        frameOf crc5 crc16_false (TYPE_CMD ||| GROUP_SINGLE ||| CMD_WRITE)
          [addr, 0x3C, 0x80, 0x00, 0x8B, 0x00],
        frameOf crc5 crc16_false (TYPE_CMD ||| GROUP_SINGLE ||| CMD_WRITE)
          [addr, 0x3C, 0x80, 0x00, 0x80, 0x0C],
        frameOf crc5 crc16_false (TYPE_CMD ||| GROUP_SINGLE ||| CMD_WRITE)
          [addr, 0x3C, 0x80, 0x00, 0x82, 0xAA]]).filter isSetAddressFrame =
        [] := by
    intro addr
    simp [List.filter_cons, pS]
  refine ⟨?_, rfl, ?_, ?_, ?_⟩
  · rw [send_init, count_asic_chips, hc]
    simp only [List.filter_append, List.filter_cons, List.filter_nil,
      pA, pW, pS, pR, pI, hraw, hfreq,
      filter_map_self isSetAddressFrame _ _ (fun a => pA [a, 0x00]),
      filter_flatMap_nil isSetAddressFrame _ _ htun]
    simp
  · exact List.Nodup.map
      (fun a b hab =>
        Nat.eq_of_mul_eq_mul_right (Nat.lt_of_lt_of_le Nat.zero_lt_one hq1) hab)
      (List.nodup_range _)
  · intro a ha
    simp only [chipAddresses, List.mem_map, List.mem_range] at ha
    obtain ⟨i, hi, rfl⟩ := ha
    have hmul : (n + 1) * address_interval (n + 1) ≤ 256 := by
      rw [Nat.mul_comm, address_interval]
      exact Nat.div_mul_le_self 256 (n + 1)
    have h3 : i * address_interval (n + 1) + 1 ≤ 256 :=
      le_trans
        (le_trans (Nat.add_le_add_left hq1 _)
          (le_trans
            (Nat.add_le_add_right
              (Nat.mul_le_mul_right (address_interval (n + 1)) (by omega)) _)
            (le_of_eq (Nat.succ_mul n (address_interval (n + 1))).symm)))
        hmul
    omega
  · intro h3
    have hn : n = 2 := by omega
    subst hn
    decide

/-- C5 witness: a transport answering three identification responses then
`None` enumerates three chips; the theorem's conclusions hold there, with
addresses `[0, 85, 170]`. -/
theorem chip_addressing_amended_witness :
    ((send_init (fun _ => 0) (fun _ => 0)
        (fun i => if i < 3 then some chipRespExample else none) 5 400 1
        16).2.filter isSetAddressFrame) =
      (chipAddresses 3).map (fun addr =>
        frameOf (fun _ => 0) (fun _ => 0)
          (TYPE_CMD ||| GROUP_SINGLE ||| CMD_SETADDRESS) [addr, 0x00]) ∧
    chipAddresses 3 = (List.range 3).map (fun i => i * (256 / 3)) ∧
    (chipAddresses 3).Nodup ∧
    (∀ a ∈ chipAddresses 3, a < 256) ∧
    (3 = 3 → chipAddresses 3 = [0, 85, 170]) :=
  chip_addressing_amended (fun _ => 0) (fun _ => 0)
    (fun i => if i < 3 then some chipRespExample else none) 5 400 1 16 3
    (by decide) (by decide) (by decide)

/-- C5 counterexample to the unrestricted claim: with 257 chips the address
interval `int(256 / 257)` is 0, every chip is assigned address 0, and the
addresses are not pairwise distinct — while 257 is reachable from
enumeration (a transport with 257 identification responses). -/
theorem chip_addressing_not_distinct_at_257 :
    countLoop (fun i => if i < 257 then some chipRespExample else none)
        300 0 0 = some 257 ∧
    address_interval 257 = 0 ∧
    ¬ (chipAddresses 257).Nodup := by
  refine ⟨by decide, rfl, by decide⟩

end BM1370
